import Mathlib

/-!
Verification development for the media-extraction service
(`app/services/ytdlp_service.py`): a shallow embedding of the retry
orchestrator `_extract_with_retry`, the platform normalizer
`_normalize_platform`, the format selector `get_best_download_url`
and the quality-catalog builder inside `extract_available_qualities`,
together with theorems settling the specification claims.
-/

/-- Python truthiness of an optional string: `None` and `""` are falsy. -/
def truthyOptStr : Option String → Bool
  | none => false
  | some s => s ≠ ""

/-- Python truthiness of an optional integer: `None` and `0` are falsy. -/
def truthyOptInt : Option Int → Bool
  | none => false
  | some n => n ≠ 0

/-- Python rendering of a bool inside an f-string: `True` / `False`. -/
def pyBoolStr (b : Bool) : String := if b then "True" else "False"

/-- Embedding of the `VideoExtractionError` exception class: it carries a
message and an `error_code` (subclasses fix the code). -/
structure VideoExtractionError where
  message : String
  error_code : String
deriving DecidableEq, Repr

/-- Embedding of one entry of the provider's `formats` list.  Each field is a
`dict.get`-style optional value. -/
structure FormatEntry where
  format_id : Option String := none
  ext : Option String := none
  url : Option String := none
  height : Option Int := none
  vcodec : Option String := none
  acodec : Option String := none
  tbr : Option ℚ := none
  filesize : Option Int := none
  filesize_approx : Option Int := none
  format_note : Option String := none
deriving DecidableEq, Repr

/-- Embedding of the raw info dict returned by the provider, restricted to
the keys the selection code reads. -/
structure RawMediaInfo where
  url : Option String := none
  extractor : Option String := none
  formats : List FormatEntry := []
  requested_formats : Option (List FormatEntry) := none
deriving DecidableEq, Repr

/-- Substring test on character lists: some tail of the haystack starts with
the pattern.  Models Python's `needle in haystack`. -/
def containsChars (hay pat : List Char) : Bool :=
  hay.tails.any (fun t => pat.isPrefixOf t)

/-- Python `needle in haystack` on strings. -/
def strContains (hay needle : String) : Bool :=
  containsChars hay.data needle.data

/-- Python `str.lower()` (ASCII, which is all the classifier needs). -/
def lowerString (s : String) : String :=
  String.mk (s.data.map Char.toLower)

/-- Embedding of the `except yt_dlp.utils.DownloadError` classification chain
of `_extract_with_retry` (lines 76-85): the first matching pattern decides the
raised error; `none` means no pattern matched (the retryable path). -/
def classifyDownloadError (msg : String) : Option VideoExtractionError :=
  if strContains msg "Video unavailable" || strContains msg "Private video" then
    some ⟨"Video is unavailable or private", "VIDEO_UNAVAILABLE"⟩
  else if strContains msg "Unsupported URL" then
    some ⟨"This URL is not supported by any available extractor", "INVALID_URL"⟩
  else if strContains msg "Sign in" || strContains (lowerString msg) "login" then
    some ⟨"This video requires authentication to access", "AUTH_REQUIRED"⟩
  else if strContains (lowerString msg) "age" then
    some ⟨"This video is age-restricted and requires authentication", "AUTH_REQUIRED"⟩
  else if strContains (lowerString msg) "copyright" || strContains (lowerString msg) "blocked" then
    some ⟨"This video is blocked or unavailable in your region", "VIDEO_UNAVAILABLE"⟩
  else
    none

instance {ε α : Type _} [DecidableEq ε] [DecidableEq α] : DecidableEq (Except ε α) := fun x y =>
  match x, y with
  | .ok a, .ok b =>
    if h : a = b then isTrue (by rw [h]) else isFalse (by intro hc; cases hc; exact h rfl)
  | .ok _, .error _ => isFalse (by intro hc; cases hc)
  | .error _, .ok _ => isFalse (by intro hc; cases hc)
  | .error a, .error b =>
    if h : a = b then isTrue (by rw [h]) else isFalse (by intro hc; cases hc; exact h rfl)

/-- One provider call (`ydl.extract_info`) can return a dict, return `None`,
or raise one of three exception classes the orchestrator distinguishes. -/
inductive ProviderOutcome where
  | success (info : RawMediaInfo)
  | noneInfo
  | downloadError (msg : String)
  | extractorError (msg : String)
  | unexpectedError (msg : String)
deriving DecidableEq, Repr

/-- Observable result of one `_extract_with_retry` run: the returned value or
raised error, the number of provider calls made, and the sequence of backoff
sleeps (in seconds) in order. -/
structure RunResult where
  outcome : Except VideoExtractionError RawMediaInfo
  calls : Nat
  sleeps : List Nat
deriving DecidableEq, Repr

def MAX_RETRIES : Nat := 3

def RETRY_DELAY : Nat := 1

/-- The retry loop of `_extract_with_retry` (lines 62-104), iterating over the
remaining attempt indices of `range(max_retries)`.  A `None` info raises
`VideoExtractionError("Could not extract video information")` inside the `try`
block, which is caught by the generic `except Exception` handler, hence flows
through the same branch as an unexpected error. -/
def retryGo (provider : Nat → ProviderOutcome) (max_retries : Nat) : List Nat → RunResult
  | [] => ⟨.error ⟨"Failed after " ++ toString max_retries ++ " attempts", "EXTRACTION_ERROR"⟩, 0, []⟩
  | attempt :: rest =>
    match provider attempt with
    | .success info => ⟨.ok info, 1, []⟩
    | .noneInfo =>
      if attempt < max_retries - 1 then
        let r := retryGo provider max_retries rest
        ⟨r.outcome, r.calls + 1, (RETRY_DELAY * 2 ^ attempt) :: r.sleeps⟩
      else
        ⟨.error ⟨"Unexpected error: Could not extract video information", "EXTRACTION_ERROR"⟩, 1, []⟩
    | .downloadError msg =>
      match classifyDownloadError msg with
      | some e => ⟨.error e, 1, []⟩
      | none =>
        if attempt < max_retries - 1 then
          let r := retryGo provider max_retries rest
          ⟨r.outcome, r.calls + 1, (RETRY_DELAY * 2 ^ attempt) :: r.sleeps⟩
        else
          ⟨.error ⟨"Failed after " ++ toString max_retries ++ " attempts: " ++ msg, "EXTRACTION_ERROR"⟩, 1, []⟩
    | .extractorError msg =>
      ⟨.error ⟨"Extractor error: " ++ msg, "EXTRACTION_ERROR"⟩, 1, []⟩
    | .unexpectedError msg =>
      if attempt < max_retries - 1 then
        let r := retryGo provider max_retries rest
        ⟨r.outcome, r.calls + 1, (RETRY_DELAY * 2 ^ attempt) :: r.sleeps⟩
      else
        ⟨.error ⟨"Unexpected error: " ++ msg, "EXTRACTION_ERROR"⟩, 1, []⟩

/-- Embedding of `_extract_with_retry(url, opts, max_retries)`: the provider is
abstracted as a function from attempt index to outcome. -/
def extract_with_retry (provider : Nat → ProviderOutcome) (max_retries : Nat) : RunResult :=
  retryGo provider max_retries (List.range max_retries)

/-- The key Python's `max(..., key=lambda x: (x.get("height") or 0, x.get("tbr") or 0))`
computes for a format entry. -/
def fmtKey (f : FormatEntry) : Int × ℚ :=
  (f.height.getD 0, f.tbr.getD 0)

/-- Boolean strict lexicographic comparison on `(height, bitrate)` pairs, as
Python compares key tuples. -/
def lexLt (a b : Int × ℚ) : Bool :=
  a.1 < b.1 || (a.1 == b.1 && a.2 < b.2)

/-- One step of Python `max(l, key=...)`: keep the current best, replacing it
only when the candidate's key is strictly greater. -/
def pyMaxStep (key : α → Int × ℚ) (best y : α) : α :=
  if lexLt (key best) (key y) then y else best

/-- Python `max(l, key=...)` for nonempty `l`: fold `pyMaxStep` over the
list, so the first maximal element wins ties. -/
def pyMaxBy (key : α → Int × ℚ) : List α → Option α
  | [] => none
  | x :: xs => some (xs.foldl (pyMaxStep key) x)

/-- The `mp4_formats` list of `get_best_download_url` (line 212). -/
def mp4FormatsOf (formats : List FormatEntry) : List FormatEntry :=
  formats.filter (fun f => f.ext == some "mp4" && truthyOptStr f.url)

/-- The `video_audio` list (line 215): mp4 formats whose `vcodec` and `acodec`
both differ from the literal string `"none"` (an absent codec also passes,
because in Python `None != "none"` is true). -/
def videoAudioOf (formats : List FormatEntry) : List FormatEntry :=
  (mp4FormatsOf formats).filter (fun f => f.vcodec != some "none" && f.acodec != some "none")

/-- The `video_only` list (line 220): mp4 formats whose `vcodec` differs from
the literal string `"none"`. -/
def videoOnlyOf (formats : List FormatEntry) : List FormatEntry :=
  (mp4FormatsOf formats).filter (fun f => f.vcodec != some "none")

/-- The terminal error of `get_best_download_url` (line 235). -/
def noDownloadUrlError : VideoExtractionError :=
  ⟨"No downloadable URL found for this video", "NO_DOWNLOAD_URL"⟩

/-- The fallback part of `get_best_download_url` (lines 225-235): scan all
formats in reverse order for a truthy `url`, then scan `requested_formats`
forward (guarded by its truthiness), else raise. -/
def fallbackScan (info : RawMediaInfo) : Except VideoExtractionError String :=
  match info.formats.reverse.find? (fun f => truthyOptStr f.url) with
  | some f => .ok (f.url.getD "")
  | none =>
    match info.requested_formats with
    | some (g :: gs) =>
      match (g :: gs).find? (fun f => truthyOptStr f.url) with
      | some f => .ok (f.url.getD "")
      | none => .error noDownloadUrlError
    | _ => .error noDownloadUrlError

/-- Embedding of `get_best_download_url(info)` (lines 206-235). -/
def get_best_download_url (info : RawMediaInfo) : Except VideoExtractionError String :=
  if truthyOptStr info.url then
    .ok (info.url.getD "")
  else if (mp4FormatsOf info.formats).isEmpty then
    fallbackScan info
  else
    match pyMaxBy fmtKey (videoAudioOf info.formats) with
    | some best => .ok (best.url.getD "")
    | none =>
      match pyMaxBy fmtKey (videoOnlyOf info.formats) with
      | some best => .ok (best.url.getD "")
      | none => fallbackScan info

/-- Strips one trailing `":tab"` from a character list, as
`platform[:-4]` guarded by `platform.endswith(":tab")` does. -/
def stripTabSuffix (cs : List Char) : List Char :=
  if [':', 't', 'a', 'b'].isSuffixOf cs then cs.take (cs.length - 4) else cs

/-- Python `str.title()` on ASCII text: a letter is uppercased when the
previous character is not a letter, lowercased otherwise.  The boolean state
records whether the previous character was a letter. -/
def pyTitleChars (prevAlpha : Bool) : List Char → List Char
  | [] => []
  | c :: cs =>
    (if c.isAlpha then (if prevAlpha then c.toLower else c.toUpper) else c)
      :: pyTitleChars c.isAlpha cs

/-- Embedding of `_normalize_platform(extractor)` (lines 108-112): strip a
trailing `":tab"`, replace underscores with spaces, title-case. -/
def normalize_platform (s : String) : String :=
  String.mk (pyTitleChars false
    ((stripTabSuffix s.data).map (fun c => if c = '_' then ' ' else c)))

/-- One entry of the catalog built by `extract_available_qualities`. -/
structure QualityOption where
  format_id : String
  quality : String
  ext : String
  filesize : Option Int
  has_audio : Bool
  has_video : Bool
deriving DecidableEq, Repr

/-- The `has_video` flag (line 171): `vcodec` present and not `"none"`. -/
def formatHasVideo (f : FormatEntry) : Bool :=
  match f.vcodec with
  | some s => s ≠ "none"
  | none => false

/-- The `has_audio` flag (line 172): `acodec` present and not `"none"`. -/
def formatHasAudio (f : FormatEntry) : Bool :=
  match f.acodec with
  | some s => s ≠ "none"
  | none => false

/-- The quality label (lines 174-179): a truthy height gives `"{height}p"`,
else `"audio only"` for audio without video, else the format note (defaulting
to `"unknown"`). -/
def qualityLabelOf (f : FormatEntry) : String :=
  if truthyOptInt f.height then toString (f.height.getD 0) ++ "p"
  else if formatHasAudio f && !formatHasVideo f then "audio only"
  else f.format_note.getD "unknown"

/-- The dedup key (line 181): the f-string `f"{quality_label}_{ext}_{has_audio}"`. -/
def qualityKeyOf (f : FormatEntry) : String :=
  qualityLabelOf f ++ "_" ++ f.ext.getD "unknown" ++ "_" ++ pyBoolStr (formatHasAudio f)

/-- The option dict appended for a format (lines 186-193). -/
def mkQualityOption (f : FormatEntry) : QualityOption where
  format_id := f.format_id.getD ""
  quality := qualityLabelOf f
  ext := f.ext.getD "unknown"
  filesize := if truthyOptInt f.filesize then f.filesize else f.filesize_approx
  has_audio := formatHasAudio f
  has_video := formatHasVideo f

/-- The accumulation loop of `extract_available_qualities` (lines 163-193):
formats without a truthy `url` are skipped, and a format whose dedup key was
already seen is skipped; otherwise its option is appended and its key
recorded. -/
def buildOptions : List FormatEntry → List String → List QualityOption
  | [], _ => []
  | f :: fs, seen =>
    if !truthyOptStr f.url then buildOptions fs seen
    else if qualityKeyOf f ∈ seen then buildOptions fs seen
    else mkQualityOption f :: buildOptions fs (qualityKeyOf f :: seen)

/-- Validity of the digit part accepted by Python `int()` after the first
character: digits, with single underscores only between digits. -/
def pyDigitsRest : List Char → Bool
  | [] => true
  | c :: cs =>
    if c = '_' then
      match cs with
      | [] => false
      | c2 :: cs2 => c2.isDigit && pyDigitsRest cs2
    else c.isDigit && pyDigitsRest cs

/-- Validity of a whole digit group for Python `int()`: nonempty, does not
start with an underscore, and the rest is digits with separating
underscores. -/
def pyDigitsValid : List Char → Bool
  | [] => false
  | c :: cs => !(c = '_' : Bool) && pyDigitsRest (c :: cs)

/-- Decimal value of a digit list. -/
def decimalVal (ds : List Char) : Nat :=
  ds.foldl (fun a c => a * 10 + (c.toNat - 48)) 0

/-- Python `int(s)` on a character list, without sign or whitespace. -/
def pyNatParse (cs : List Char) : Option Nat :=
  if pyDigitsValid cs then some (decimalVal (cs.filter (fun c => c ≠ '_'))) else none

/-- Strip leading and trailing whitespace from a character list, as Python
`int()` tolerates around the digits. -/
def trimWs (cs : List Char) : List Char :=
  ((cs.dropWhile Char.isWhitespace).reverse.dropWhile Char.isWhitespace).reverse

/-- Python `int(s)`: strip surrounding whitespace, allow one sign, then a
digit group with optional underscore separators; anything else raises
`ValueError`, modelled as `none`. -/
def pyIntParse (cs : List Char) : Option Int :=
  match trimWs cs with
  | [] => none
  | c :: rest =>
    if c = '+' then (pyNatParse rest).map Int.ofNat
    else if c = '-' then (pyNatParse rest).map (fun n => -(n : Int))
    else (pyNatParse (c :: rest)).map Int.ofNat

/-- Whether a label satisfies Python's `quality.endswith("p")`. -/
def endsInP (s : String) : Bool :=
  s.data.getLast? == some 'p'

/-- The sort key of line 195-198 for one option:
`(0 if has_video else 1, -int(quality.replace("p", "")) if quality.endswith("p") else 0)`.
`none` models the `ValueError` that `int` raises on a non-numeric remainder. -/
def codeSortKeyOpt (o : QualityOption) : Option (Int × Int) :=
  let primary : Int := if o.has_video then 0 else 1
  if endsInP o.quality then
    match pyIntParse (o.quality.data.filter (fun c => c ≠ 'p')) with
    | some n => some (primary, -n)
    | none => none
  else
    some (primary, 0)

/-- Comparison used to realise Python's stable `list.sort(key=...)` on
index-decorated options: lexicographic on the key pair with the original
index as final tiebreak (which makes the order total and antisymmetric and
yields exactly the stable sort). -/
def keyIdxLe (key : α → Int × Int) (a b : Nat × α) : Prop :=
  (key a.2).1 < (key b.2).1 ∨
    ((key a.2).1 = (key b.2).1 ∧
      ((key a.2).2 < (key b.2).2 ∨ ((key a.2).2 = (key b.2).2 ∧ a.1 ≤ b.1)))

instance (key : α → Int × Int) : DecidableRel (keyIdxLe key) := by
  intro a b
  unfold keyIdxLe
  infer_instance

/-- Index-decorate a list, counting from `n`. -/
def enumF (n : Nat) : List α → List (Nat × α)
  | [] => []
  | x :: xs => (n, x) :: enumF (n + 1) xs

/-- Stable sort by a key function: sort the index-decorated list by
key-then-index and drop the indices.  This is the behaviour of Python's
`list.sort(key=...)`. -/
def stableSortBy (key : α → Int × Int) (l : List α) : List α :=
  ((enumF 0 l).insertionSort (keyIdxLe key)).map (fun p => p.2)

/-- The sort key actually applied in `extract_available_qualities`, defaulting
the (never hit in a successful run) error case. -/
def appliedSortKey (o : QualityOption) : Int × Int :=
  (codeSortKeyOpt o).getD (0, 0)

/-- Embedding of the catalog construction of `extract_available_qualities`
(lines 160-198): build the deduplicated option list, then sort it with the
line 195 key.  Computing the key can raise `ValueError` (e.g. a label ending
in `"p"` whose other characters do not form an integer), modelled as
`Except.error`. -/
def extract_available_qualities (formats : List FormatEntry) :
    Except String (List QualityOption) :=
  match (buildOptions formats []).mapM codeSortKeyOpt with
  | none => .error "ValueError"
  | some _ => .ok (stableSortBy appliedSortKey (buildOptions formats []))

/-- Codec presence in the sense of the specification's data model: a codec
field counts as present only when it is set and differs from `"none"`
("\"none\" or absent implies no video/audio"). -/
def codecPresentSpec : Option String → Bool
  | some s => s ≠ "none"
  | none => false

/-- The mp4 entries of a format list that have a truthy url and both codecs
present in the specification's sense; the spec's FormatSelector step 2a
maximizes over exactly these. -/
def specBothCodecPool (formats : List FormatEntry) : List FormatEntry :=
  formats.filter (fun f =>
    f.ext == some "mp4" && truthyOptStr f.url &&
      codecPresentSpec f.vcodec && codecPresentSpec f.acodec)

/-- Numeric height of a canonical quality label: for labels of the shape
digits followed by a final `"p"` it is the decimal value of the digits,
otherwise there is none. -/
def canonicalHeight (s : String) : Option Nat :=
  if s.data.getLast? == some 'p' && !s.data.dropLast.isEmpty
      && s.data.dropLast.all Char.isDigit then
    some (decimalVal s.data.dropLast)
  else none

/-- The ordering key the specification describes for the catalog: video-bearing
entries first, then numeric height descending for labels ending in `"p"`,
every other label treated as height `0`. -/
def claimSortKey (o : QualityOption) : Int × Int :=
  ((if o.has_video then 0 else 1 : Int),
    match canonicalHeight o.quality with
    | some n => -(n : Int)
    | none => 0)

/-- Lexicographic comparison of claim sort keys, as a relation on options. -/
def claimKeyLe (a b : QualityOption) : Prop :=
  (claimSortKey a).1 < (claimSortKey b).1 ∨
    ((claimSortKey a).1 = (claimSortKey b).1 ∧ (claimSortKey a).2 ≤ (claimSortKey b).2)

/-- The dedup key of a produced option, reconstructed from its fields; it
coincides with `qualityKeyOf` of the source format. -/
def optionKey (o : QualityOption) : String :=
  o.quality ++ "_" ++ o.ext ++ "_" ++ pyBoolStr o.has_audio

/-- The `(qualityLabel, ext, hasAudio)` dedup triple the specification
describes for a produced option. -/
def optionTriple (o : QualityOption) : String × String × Bool :=
  (o.quality, o.ext, o.has_audio)

/-- C10: a raw info dict whose top-level `url` is set and nonempty resolves to
exactly that url; the format lists are never consulted. -/
theorem c10_direct_url (info : RawMediaInfo) (u : String)
    (hu : info.url = some u) (hne : u ≠ "") :
    get_best_download_url info = .ok u := by
  unfold get_best_download_url
  rw [hu]
  simp [truthyOptStr, hne]

/-- Witness for C10 at a concrete info dict that also carries formats. -/
theorem c10_direct_url_witness :
    get_best_download_url
      { url := some "https direct", formats := [{ ext := some "mp4", url := some "other" }] } =
      .ok "https direct" :=
  c10_direct_url _ "https direct" rfl (by decide)

/-- C1 counterexample: when the provider returns `None` on every attempt, the
orchestrator does NOT fail immediately: it makes all 3 provider calls, sleeps
the two backoff delays, and surfaces the message with an "Unexpected error"
prefix, because the internally raised error is caught by the generic
`except Exception` handler. -/
theorem c1_counterexample :
    (extract_with_retry (fun _ => .noneInfo) MAX_RETRIES).calls = 3 ∧
    (extract_with_retry (fun _ => .noneInfo) MAX_RETRIES).sleeps = [1, 2] ∧
    (extract_with_retry (fun _ => .noneInfo) MAX_RETRIES).outcome =
      .error ⟨"Unexpected error: Could not extract video information", "EXTRACTION_ERROR"⟩ := by
  refine ⟨?_, ?_, ?_⟩ <;> decide

/-- C1 (amended): a `None` provider result raises
`VideoExtractionError("Could not extract video information")`, which the
generic exception handler treats as retryable; with every attempt returning
`None` the orchestrator makes all `MAX_RETRIES = 3` calls, sleeps 1s and 2s,
and finally fails with message "Unexpected error: Could not extract video
information". -/
theorem c1_none_is_retried (p : Nat → ProviderOutcome) (h : ∀ n, p n = .noneInfo) :
    extract_with_retry p MAX_RETRIES =
      ⟨.error ⟨"Unexpected error: Could not extract video information", "EXTRACTION_ERROR"⟩,
        3, [1, 2]⟩ := by
  have h0 := h 0
  have h1 := h 1
  have h2 := h 2
  have hr : List.range MAX_RETRIES = [0, 1, 2] := by decide
  unfold extract_with_retry
  rw [hr]
  simp [retryGo, h0, h1, h2, MAX_RETRIES, RETRY_DELAY]

/-- Witness for C1 at the constant-`None` provider. -/
theorem c1_none_is_retried_witness :
    extract_with_retry (fun _ => .noneInfo) MAX_RETRIES =
      ⟨.error ⟨"Unexpected error: Could not extract video information", "EXTRACTION_ERROR"⟩,
        3, [1, 2]⟩ :=
  c1_none_is_retried (fun _ => .noneInfo) (fun _ => rfl)

/-- C2 counterexample: the classification is not case-insensitive.  A provider
error whose text is the all-lowercase "video unavailable" matches no pattern,
so instead of a terminal VideoUnavailable after one call, the orchestrator
retries: 3 calls and both backoff sleeps happen. -/
theorem c2_counterexample :
    classifyDownloadError "video unavailable" = none ∧
    (extract_with_retry (fun _ => .downloadError "video unavailable") MAX_RETRIES).calls = 3 ∧
    (extract_with_retry (fun _ => .downloadError "video unavailable") MAX_RETRIES).sleeps =
      [1, 2] := by
  refine ⟨?_, ?_, ?_⟩ <;> decide

/-- C2 (amended): provider error text is classified by substring match with
mixed case sensitivity — "Video unavailable", "Private video",
"Unsupported URL" and "Sign in" are matched case-sensitively while "login",
"age", "copyright" and "blocked" are matched on the lowercased text — in the
stated precedence order, and any classified error is terminal: it is raised
after exactly one provider call with no sleep. -/
theorem c2_classification_terminal :
    (∀ (p : Nat → ProviderOutcome) (msg : String) (e : VideoExtractionError),
      p 0 = .downloadError msg → classifyDownloadError msg = some e →
      extract_with_retry p MAX_RETRIES = ⟨.error e, 1, []⟩) ∧
    classifyDownloadError "Private video" =
      some ⟨"Video is unavailable or private", "VIDEO_UNAVAILABLE"⟩ ∧
    classifyDownloadError "Video unavailable" =
      some ⟨"Video is unavailable or private", "VIDEO_UNAVAILABLE"⟩ ∧
    classifyDownloadError "Unsupported URL: xyz" =
      some ⟨"This URL is not supported by any available extractor", "INVALID_URL"⟩ ∧
    classifyDownloadError "Sign in to continue" =
      some ⟨"This video requires authentication to access", "AUTH_REQUIRED"⟩ ∧
    classifyDownloadError "LOGIN required" =
      some ⟨"This video requires authentication to access", "AUTH_REQUIRED"⟩ ∧
    classifyDownloadError "AGE-restricted content" =
      some ⟨"This video is age-restricted and requires authentication", "AUTH_REQUIRED"⟩ ∧
    classifyDownloadError "BLOCKED by COPYRIGHT holder" =
      some ⟨"This video is blocked or unavailable in your region", "VIDEO_UNAVAILABLE"⟩ ∧
    classifyDownloadError "Private video, Sign in please" =
      some ⟨"Video is unavailable or private", "VIDEO_UNAVAILABLE"⟩ ∧
    classifyDownloadError "private video" = none ∧
    classifyDownloadError "unsupported url" = none ∧
    classifyDownloadError "sign in" = none := by
  refine ⟨?_, by decide, by decide, by decide, by decide, by decide, by decide, by decide,
    by decide, by decide, by decide, by decide⟩
  intro p msg e hp hc
  have hr : List.range MAX_RETRIES = [0, 1, 2] := by decide
  unfold extract_with_retry
  rw [hr]
  simp [retryGo, hp, hc]

/-- Witness for C2 at a provider failing once with a "Private video" text. -/
theorem c2_classification_terminal_witness :
    extract_with_retry (fun _ => .downloadError "Private video: removed") MAX_RETRIES =
      ⟨.error ⟨"Video is unavailable or private", "VIDEO_UNAVAILABLE"⟩, 1, []⟩ :=
  c2_classification_terminal.1 _ "Private video: removed" _ rfl (by decide)

/-- C3 (confirmed): with `MAX_RETRIES = 3` and base delay 1s, unclassified
provider errors are retried with backoff `RETRY_DELAY * 2 ^ attempt` (1s then
2s); two failures followed by a success return that success after 3 calls,
and three failures surface an ExtractionFailed annotated with the attempt
count. -/
theorem c3_retry_with_backoff :
    MAX_RETRIES = 3 ∧ RETRY_DELAY = 1 ∧
    (∀ (p : Nat → ProviderOutcome) (m0 m1 : String) (info : RawMediaInfo),
      p 0 = .downloadError m0 → p 1 = .downloadError m1 → p 2 = .success info →
      classifyDownloadError m0 = none → classifyDownloadError m1 = none →
      extract_with_retry p MAX_RETRIES =
        ⟨.ok info, 3, [RETRY_DELAY * 2 ^ 0, RETRY_DELAY * 2 ^ 1]⟩) ∧
    (∀ (p : Nat → ProviderOutcome) (m0 m1 m2 : String),
      p 0 = .downloadError m0 → p 1 = .downloadError m1 → p 2 = .downloadError m2 →
      classifyDownloadError m0 = none → classifyDownloadError m1 = none →
      classifyDownloadError m2 = none →
      extract_with_retry p MAX_RETRIES =
        ⟨.error ⟨"Failed after 3 attempts: " ++ m2, "EXTRACTION_ERROR"⟩, 3,
          [RETRY_DELAY * 2 ^ 0, RETRY_DELAY * 2 ^ 1]⟩) := by
  refine ⟨rfl, rfl, ?_, ?_⟩
  all_goals
    intro p m0 m1 x h0 h1 h2 hc0 hc1
    try intro hc2
  all_goals
    have hr : List.range MAX_RETRIES = [0, 1, 2] := by decide
    unfold extract_with_retry
    rw [hr]
    simp [retryGo, h0, h1, h2, hc0, hc1, MAX_RETRIES, RETRY_DELAY]
  simp_all [retryGo]
  rw [show ("Failed after " ++ toString (3 : Nat) ++ " attempts: " : String) =
    "Failed after 3 attempts: " by decide]

/-- Witness for C3: a provider that fails twice with a transient network
message then succeeds. -/
theorem c3_retry_with_backoff_witness :
    extract_with_retry
      (fun n => if n < 2 then .downloadError "network timeout" else .success {}) MAX_RETRIES =
      ⟨.ok {}, 3, [RETRY_DELAY * 2 ^ 0, RETRY_DELAY * 2 ^ 1]⟩ :=
  c3_retry_with_backoff.2.2.1 _ "network timeout" "network timeout" {}
    rfl rfl rfl (by decide) (by decide)

/-- C8 counterexample: the empty extractor id does not normalize to
"Unknown"; it normalizes to the empty string.  The "Unknown" default exists
only because callers substitute the literal "unknown" for an absent
`extractor` key before calling the normalizer. -/
theorem c8_counterexample :
    normalize_platform "" = "" ∧ normalize_platform "" ≠ "Unknown" := by
  refine ⟨?_, ?_⟩ <;> decide

/-- C8 (amended): the normalizer is a pure total function that strips one
trailing ":tab", replaces underscores with spaces and title-cases each word;
"youtube:tab" gives "Youtube" and the caller-supplied default "unknown" gives
"Unknown", but the empty string gives "" rather than "Unknown". -/
theorem c8_normalize_platform :
    (∀ cs : List Char, stripTabSuffix (cs ++ [':', 't', 'a', 'b']) = cs) ∧
    normalize_platform "youtube:tab" = "Youtube" ∧
    normalize_platform "unknown" = "Unknown" ∧
    normalize_platform "youtube:tab:tab" = "Youtube:Tab" ∧
    normalize_platform "big_buck_bunny" = "Big Buck Bunny" ∧
    normalize_platform "" = "" := by
  refine ⟨?_, by decide, by decide, by decide, by decide, by decide⟩
  intro cs
  unfold stripTabSuffix
  rw [if_pos, List.length_append]
  · simp [List.take_left']
  · rw [List.isSuffixOf_iff_suffix]
    exact ⟨cs, rfl⟩

/-- A perfectly ordinary-looking format whose `format_note` is the single
character "p": it has a url, both codecs, and no height, so its quality label
becomes the note itself. -/
def formatNoteP : FormatEntry :=
  { ext := some "mp4", url := some "https v", vcodec := some "h264",
    acodec := some "aac", format_note := some "p" }

/-- C9: the catalog builder is not total.  On `formatNoteP` the derived label
is "p", which ends in "p" but whose remaining characters do not form an
integer, so the sort key expression `int(quality.replace("p", ""))` raises
`ValueError` and `extract_available_qualities` crashes instead of returning a
catalog. -/
theorem c9_catalog_value_error :
    qualityLabelOf formatNoteP = "p" ∧
    truthyOptStr formatNoteP.url = true ∧
    extract_available_qualities [formatNoteP] = .error "ValueError" := by
  refine ⟨?_, ?_, ?_⟩ <;> decide

theorem lexLt_iff_toLex_lt (a b : Int × ℚ) : lexLt a b = true ↔ toLex a < toLex b := by
  rw [Prod.Lex.lt_iff]
  simp [lexLt]

theorem foldl_pyMaxStep_spec (key : α → Int × ℚ) :
    ∀ (xs : List α) (x : α),
      ∃ l1 l2, x :: xs = l1 ++ (xs.foldl (pyMaxStep key) x) :: l2 ∧
        (∀ g ∈ x :: xs, toLex (key g) ≤ toLex (key (xs.foldl (pyMaxStep key) x))) ∧
        (∀ g ∈ l1, toLex (key g) < toLex (key (xs.foldl (pyMaxStep key) x))) := by
  intro xs
  induction xs with
  | nil =>
    intro x
    exact ⟨[], [], rfl, by simp, by simp⟩
  | cons y ys ih =>
    intro x
    rw [List.foldl_cons]
    by_cases hxy : lexLt (key x) (key y) = true
    · have hstep : pyMaxStep key x y = y := by simp [pyMaxStep, hxy]
      rw [hstep]
      obtain ⟨l1, l2, hdec, hub, hstrict⟩ := ih y
      have hxylt : toLex (key x) < toLex (key y) := (lexLt_iff_toLex_lt _ _).1 hxy
      have hyler : toLex (key y) ≤ toLex (key (ys.foldl (pyMaxStep key) y)) := hub y (by simp)
      refine ⟨x :: l1, l2, ?_, ?_, ?_⟩
      · rw [List.cons_append, ← hdec]
      · intro g hg
        rcases List.mem_cons.1 hg with hgx | hgrest
        · subst hgx
          exact le_of_lt (lt_of_lt_of_le hxylt hyler)
        · exact hub g hgrest
      · intro g hg
        rcases List.mem_cons.1 hg with hgx | hgl1
        · subst hgx
          exact lt_of_lt_of_le hxylt hyler
        · exact hstrict g hgl1
    · have hstep : pyMaxStep key x y = x := by simp [pyMaxStep, hxy]
      rw [hstep]
      obtain ⟨l1, l2, hdec, hub, hstrict⟩ := ih x
      have hylex : toLex (key y) ≤ toLex (key x) := by
        have hnot : ¬ toLex (key x) < toLex (key y) :=
          fun hlt => hxy ((lexLt_iff_toLex_lt _ _).2 hlt)
        exact not_lt.1 hnot
      have hyleR : toLex (key y) ≤ toLex (key (ys.foldl (pyMaxStep key) x)) :=
        le_trans hylex (hub x (by simp))
      cases l1 with
      | nil =>
        simp only [List.nil_append, List.cons.injEq] at hdec
        obtain ⟨hx, hys⟩ := hdec
        refine ⟨[], y :: ys, ?_, ?_, by simp⟩
        · simp only [List.nil_append]
          rw [← hx]
        · intro g hg
          rcases List.mem_cons.1 hg with hgx | hgrest
          · subst hgx
            exact hub g (by simp)
          · rcases List.mem_cons.1 hgrest with hgy | hgys
            · subst hgy
              exact hyleR
            · exact hub g (List.mem_cons_of_mem _ hgys)
      | cons a t =>
        simp only [List.cons_append, List.cons.injEq] at hdec
        obtain ⟨hx, hys⟩ := hdec
        have hxmem : x ∈ a :: t := by simp [hx]
        have hxstrict : toLex (key x) < toLex (key (ys.foldl (pyMaxStep key) x)) :=
          hstrict x hxmem
        refine ⟨x :: y :: t, l2, ?_, ?_, ?_⟩
        · conv_lhs => rw [hys]
          simp
        · intro g hg
          rcases List.mem_cons.1 hg with hgx | hgrest
          · subst hgx
            exact hub g (by simp)
          · rcases List.mem_cons.1 hgrest with hgy | hgys
            · subst hgy
              exact hyleR
            · exact hub g (List.mem_cons_of_mem _ hgys)
        · intro g hg
          rcases List.mem_cons.1 hg with hgx | hgrest
          · subst hgx
            exact hxstrict
          · rcases List.mem_cons.1 hgrest with hgy | hgt
            · subst hgy
              exact lt_of_le_of_lt hylex hxstrict
            · exact hstrict g (List.mem_cons_of_mem _ hgt)

/-- Specification of `pyMaxBy` on a nonempty list: it returns an element of
the list whose key is maximal and which precedes every other maximal
element. -/
theorem pyMaxBy_first_max (key : α → Int × ℚ) (x : α) (xs : List α) :
    ∃ l1 r l2, pyMaxBy key (x :: xs) = some r ∧ x :: xs = l1 ++ r :: l2 ∧
      (∀ g ∈ x :: xs, toLex (key g) ≤ toLex (key r)) ∧
      (∀ g ∈ l1, toLex (key g) < toLex (key r)) := by
  obtain ⟨l1, l2, hdec, hub, hstrict⟩ := foldl_pyMaxStep_spec key xs x
  exact ⟨l1, _, l2, rfl, hdec, hub, hstrict⟩

/-- C4 (amended): with no truthy top-level url, when the pool of mp4 formats
with truthy url whose `vcodec` and `acodec` both differ from the string
`"none"` (an absent codec field also qualifies) is nonempty, the selector
returns the url of the first entry of that pool maximizing
`(height ?? 0, bitrate ?? 0)` lexicographically; entries before it have
strictly smaller keys, so ties go to the first encountered. -/
theorem c4_mp4_max_selection (info : RawMediaInfo)
    (h0 : truthyOptStr info.url = false)
    (hne : videoAudioOf info.formats ≠ []) :
    ∃ l1 best l2,
      videoAudioOf info.formats = l1 ++ best :: l2 ∧
      get_best_download_url info = .ok (best.url.getD "") ∧
      (∀ g ∈ videoAudioOf info.formats, toLex (fmtKey g) ≤ toLex (fmtKey best)) ∧
      (∀ g ∈ l1, toLex (fmtKey g) < toLex (fmtKey best)) := by
  obtain ⟨x, xs, hpool⟩ := List.exists_cons_of_ne_nil hne
  have hmp4ne : mp4FormatsOf info.formats ≠ [] := by
    intro hnil
    apply hne
    unfold videoAudioOf
    rw [hnil]
    rfl
  have hmp4empty : (mp4FormatsOf info.formats).isEmpty = false := by
    cases hmp : mp4FormatsOf info.formats with
    | nil => exact absurd hmp hmp4ne
    | cons a l => rfl
  obtain ⟨l1, r, l2, hmax, hdec, hub, hstrict⟩ := pyMaxBy_first_max fmtKey x xs
  refine ⟨l1, r, l2, by rw [hpool, hdec], ?_, ?_, ?_⟩
  · unfold get_best_download_url
    rw [h0, hmp4empty]
    simp only [Bool.false_eq_true, if_false]
    rw [hpool, hmax]
  · rw [hpool]
    exact hub
  · exact hstrict

/-- The spec example pool: two mp4 entries with both codecs, 720p and
1080p. -/
def w4info : RawMediaInfo :=
  { formats :=
      [{ ext := some "mp4", url := some "u1", height := some 720,
         vcodec := some "h264", acodec := some "aac" },
       { ext := some "mp4", url := some "u2", height := some 1080,
         vcodec := some "h264", acodec := some "aac" }] }

/-- Witness for C4 at the spec's own example: the 1080p entry wins. -/
theorem c4_mp4_max_selection_witness :
    ∃ l1 best l2,
      videoAudioOf w4info.formats = l1 ++ best :: l2 ∧
      get_best_download_url w4info = .ok (best.url.getD "") ∧
      (∀ g ∈ videoAudioOf w4info.formats, toLex (fmtKey g) ≤ toLex (fmtKey best)) ∧
      (∀ g ∈ l1, toLex (fmtKey g) < toLex (fmtKey best)) :=
  c4_mp4_max_selection w4info (by decide) (by decide)

/-- An mp4 entry with both codec fields present. -/
def cexBoth : FormatEntry :=
  { ext := some "mp4", url := some "u1", height := some 720,
    vcodec := some "h264", acodec := some "aac" }

/-- An mp4 entry with no codec fields at all, but a larger height. -/
def cexAbsent : FormatEntry :=
  { ext := some "mp4", url := some "u2", height := some 1080 }

/-- Info dict combining the two. -/
def cexInfo4 : RawMediaInfo := { formats := [cexBoth, cexAbsent] }

/-- C4 counterexample: the entries with both codecs present in the spec's
sense are exactly `[cexBoth]` with url "u1", yet the selector returns "u2" —
the code's pool admits the codec-less `cexAbsent` because in Python
`None != "none"` is true, so the claim's maximization domain is wrong. -/
theorem c4_counterexample :
    specBothCodecPool cexInfo4.formats = [cexBoth] ∧
    cexBoth.url = some "u1" ∧
    get_best_download_url cexInfo4 = .ok "u2" ∧
    ("u2" : String) ≠ "u1" := by
  refine ⟨?_, ?_, ?_, ?_⟩ <;> decide

/-- Unfolding of `fallbackScan` as the two-stage find-or-error cascade. -/
theorem fallbackScan_eq (info : RawMediaInfo) :
    fallbackScan info =
      match info.formats.reverse.find? (fun g => truthyOptStr g.url) with
      | some f => .ok (f.url.getD "")
      | none =>
        match (info.requested_formats.getD []).find? (fun g => truthyOptStr g.url) with
        | some f => .ok (f.url.getD "")
        | none => .error noDownloadUrlError := by
  unfold fallbackScan
  cases info.formats.reverse.find? (fun g => truthyOptStr g.url) with
  | some f => rfl
  | none =>
    cases hreq : info.requested_formats with
    | none => rfl
    | some rl =>
      cases rl with
      | nil => rfl
      | cons g gs => rfl

/-- C6: when no truthy top-level url exists and every mp4-with-url format has
`vcodec == "none"` (so neither mp4 pool is usable), the selector falls back:
it returns the first format with a truthy url scanning all formats in reverse
order; failing that, the first truthy url in `requested_formats` scanned
forward; failing that it raises the NO_DOWNLOAD_URL error. -/
theorem c6_fallback_order (info : RawMediaInfo)
    (h0 : truthyOptStr info.url = false)
    (h1 : ∀ f ∈ info.formats, f.ext = some "mp4" → truthyOptStr f.url = true →
      f.vcodec = some "none") :
    (∀ f, info.formats.reverse.find? (fun g => truthyOptStr g.url) = some f →
        get_best_download_url info = .ok (f.url.getD "")) ∧
    (info.formats.reverse.find? (fun g => truthyOptStr g.url) = none →
      (∀ f, (info.requested_formats.getD []).find? (fun g => truthyOptStr g.url) = some f →
          get_best_download_url info = .ok (f.url.getD "")) ∧
      ((info.requested_formats.getD []).find? (fun g => truthyOptStr g.url) = none →
          get_best_download_url info = .error noDownloadUrlError)) := by
  have hvonil : videoOnlyOf info.formats = [] := by
    unfold videoOnlyOf
    rw [List.filter_eq_nil_iff]
    intro f hf
    obtain ⟨hmem, hpred⟩ := List.mem_filter.1 hf
    have hpred2 : (f.ext == some "mp4") = true ∧ truthyOptStr f.url = true := by
      simpa using hpred
    have hv := h1 f hmem (by exact_mod_cast beq_iff_eq.1 hpred2.1) hpred2.2
    simp [hv]
  have hvanil : videoAudioOf info.formats = [] := by
    unfold videoAudioOf
    rw [List.filter_eq_nil_iff]
    intro f hf
    obtain ⟨hmem, hpred⟩ := List.mem_filter.1 hf
    have hpred2 : (f.ext == some "mp4") = true ∧ truthyOptStr f.url = true := by
      simpa using hpred
    have hv := h1 f hmem (by exact_mod_cast beq_iff_eq.1 hpred2.1) hpred2.2
    simp [hv]
  have hfb : get_best_download_url info = fallbackScan info := by
    unfold get_best_download_url
    rw [h0]
    simp only [Bool.false_eq_true, if_false]
    cases hval : (mp4FormatsOf info.formats).isEmpty with
    | true => rfl
    | false =>
      rw [hvanil, hvonil]
      rfl
  refine ⟨?_, ?_⟩
  · intro f hf
    rw [hfb, fallbackScan_eq, hf]
  · intro hnone
    refine ⟨?_, ?_⟩
    · intro f hf
      rw [hfb, fallbackScan_eq, hnone, hf]
    · intro hnone2
      rw [hfb, fallbackScan_eq, hnone, hnone2]

/-- A fallback scenario: a webm without url, then two webm entries with urls
(so the reverse scan must pick the later "w2"), no mp4 at all. -/
def w6info : RawMediaInfo :=
  { formats :=
      [{ ext := some "webm", format_id := some "1" },
       { ext := some "webm", url := some "w1", format_id := some "2" },
       { ext := some "webm", url := some "w2", format_id := some "3" }] }

/-- Witness for C6: the reverse scan returns the last truthy url. -/
theorem c6_fallback_order_witness :
    get_best_download_url w6info = .ok "w2" :=
  (c6_fallback_order w6info (by decide) (by decide)).1
    { ext := some "webm", url := some "w2", format_id := some "3" } (by decide)

instance (key : α → Int × Int) : IsTotal (Nat × α) (keyIdxLe key) := by
  refine ⟨?_⟩
  intro a b
  unfold keyIdxLe
  omega

instance (key : α → Int × Int) : IsTrans (Nat × α) (keyIdxLe key) := by
  refine ⟨?_⟩
  intro a b c
  unfold keyIdxLe
  omega

theorem enumF_map_snd : ∀ (n : Nat) (l : List α), (enumF n l).map (fun p => p.2) = l := by
  intro n l
  induction l generalizing n with
  | nil => rfl
  | cons x xs ih =>
    simp [enumF, ih]

theorem mem_enumF_fst_ge : ∀ (n : Nat) (l : List α) (p : Nat × α), p ∈ enumF n l → n ≤ p.1 := by
  intro n l
  induction l generalizing n with
  | nil => intro p hp; cases hp
  | cons x xs ih =>
    intro p hp
    rcases List.mem_cons.1 hp with h | h
    · subst h; exact le_refl _
    · exact le_trans (Nat.le_succ n) (ih (n + 1) p h)

theorem enumF_pairwise_fst_lt : ∀ (n : Nat) (l : List α), (enumF n l).Pairwise (fun a b => a.1 < b.1) := by
  intro n l
  induction l generalizing n with
  | nil => exact List.Pairwise.nil
  | cons x xs ih =>
    refine List.Pairwise.cons ?_ (ih (n + 1))
    intro b hb
    have := mem_enumF_fst_ge (n + 1) xs b hb
    omega

theorem stableSortBy_perm (key : α → Int × Int) (l : List α) : (stableSortBy key l).Perm l := by
  have h := (List.perm_insertionSort (keyIdxLe key) (enumF 0 l)).map (fun p : Nat × α => p.2)
  rw [enumF_map_snd] at h
  exact h

theorem stableSortBy_pairwise (key : α → Int × Int) (l : List α) :
    (stableSortBy key l).Pairwise (fun a b =>
      (key a).1 < (key b).1 ∨ ((key a).1 = (key b).1 ∧ (key a).2 ≤ (key b).2)) := by
  have hs : (List.insertionSort (keyIdxLe key) (enumF 0 l)).Pairwise (keyIdxLe key) :=
    List.sorted_insertionSort (keyIdxLe key) (enumF 0 l)
  refine List.Pairwise.map _ ?_ hs
  intro a b h
  unfold keyIdxLe at h
  omega

theorem stableSortBy_filter_key (key : α → Int × Int) (l : List α) (k : Int × Int) :
    (stableSortBy key l).filter (fun a => decide (key a = k)) =
      l.filter (fun a => decide (key a = k)) := by
  set p : α → Bool := fun a => decide (key a = k) with hp
  set L := enumF 0 l with hL
  set M := List.insertionSort (keyIdxLe key) L with hM
  have hperm : M.Perm L := List.perm_insertionSort _ _
  have hsorted : M.Pairwise (keyIdxLe key) := List.sorted_insertionSort _ _
  have hfstltL : L.Pairwise (fun a b => a.1 < b.1) := enumF_pairwise_fst_lt 0 l
  have hfstneL : L.Pairwise (fun a b => a.1 ≠ b.1) := hfstltL.imp (fun h => Nat.ne_of_lt h)
  have hnodupL : (L.map Prod.fst).Nodup := List.pairwise_map.2 hfstneL
  have hnodupM : (M.map Prod.fst).Nodup := ((hperm.map Prod.fst).nodup_iff).2 hnodupL
  have hfstneM : M.Pairwise (fun a b => a.1 ≠ b.1) := List.pairwise_map.1 hnodupM
  have hcomb : M.Pairwise (fun a b => keyIdxLe key a b ∧ a.1 ≠ b.1) := hsorted.and hfstneM
  have hpermf : (M.filter (fun pr => p pr.2)).Perm (L.filter (fun pr => p pr.2)) :=
    hperm.filter _
  have hLf : (L.filter (fun pr => p pr.2)).Pairwise (fun a b => a.1 < b.1) :=
    hfstltL.filter _
  have hMf : (M.filter (fun pr => p pr.2)).Pairwise (fun a b => a.1 < b.1) := by
    have h0 : (M.filter (fun pr => p pr.2)).Pairwise
        (fun a b => keyIdxLe key a b ∧ a.1 ≠ b.1) := hcomb.filter _
    refine h0.imp_of_mem ?_
    intro a b ha hb hab
    have hka : key a.2 = k := by
      have := (List.mem_filter.1 ha).2
      rw [hp] at this
      exact of_decide_eq_true this
    have hkb : key b.2 = k := by
      have := (List.mem_filter.1 hb).2
      rw [hp] at this
      exact of_decide_eq_true this
    obtain ⟨hle, hne⟩ := hab
    unfold keyIdxLe at hle
    rw [hka, hkb] at hle
    omega
  haveI : IsAntisymm (Nat × α) (fun a b => a.1 < b.1) :=
    ⟨fun a b h1 h2 => absurd (lt_trans h1 h2) (lt_irrefl _)⟩
  have heq : M.filter (fun pr => p pr.2) = L.filter (fun pr => p pr.2) :=
    List.eq_of_perm_of_sorted hpermf hMf hLf
  have hcalc : (stableSortBy key l).filter p = (M.filter (fun pr => p pr.2)).map (fun pr => pr.2) := by
    rw [stableSortBy]
    rw [List.filter_map]
    rfl
  rw [hcalc, heq]
  have : (L.filter (fun pr => p pr.2)).map (fun pr : Nat × α => pr.2) =
      (L.map (fun pr => pr.2)).filter p := by
    rw [List.filter_map]
    rfl
  rw [this, hL, enumF_map_snd]

/-- The reconstructed dedup key of a produced option equals the source
format's dedup key. -/
theorem optionKey_mk (f : FormatEntry) : optionKey (mkQualityOption f) = qualityKeyOf f := rfl

/-- Invariant of the dedup loop: option keys are distinct, avoid the seen
set, at most one option per format is emitted, and the key of every truthy
candidate is either already seen or emitted. -/
theorem buildOptions_invariant :
    ∀ (fs : List FormatEntry) (seen : List String),
      ((buildOptions fs seen).map optionKey).Nodup ∧
      (∀ k ∈ (buildOptions fs seen).map optionKey, k ∉ seen) ∧
      (buildOptions fs seen).length ≤ fs.length ∧
      (∀ f ∈ fs, truthyOptStr f.url = true →
        qualityKeyOf f ∈ seen ∨ qualityKeyOf f ∈ (buildOptions fs seen).map optionKey) := by
  intro fs
  induction fs with
  | nil =>
    intro seen
    refine ⟨by simp [buildOptions], by simp [buildOptions], by simp [buildOptions], by simp⟩
  | cons f fs ih =>
    intro seen
    by_cases hurl : truthyOptStr f.url = true
    · by_cases hseen : qualityKeyOf f ∈ seen
      · have hb : buildOptions (f :: fs) seen = buildOptions fs seen := by
          simp [buildOptions, hurl, hseen]
        obtain ⟨ihnodup, ihnotseen, ihlen, ihcover⟩ := ih seen
        rw [hb]
        refine ⟨ihnodup, ihnotseen, le_trans ihlen (Nat.le_succ _), ?_⟩
        intro g hg hgurl
        rcases List.mem_cons.1 hg with h | h
        · subst h
          exact Or.inl hseen
        · exact ihcover g h hgurl
      · have hb : buildOptions (f :: fs) seen =
            mkQualityOption f :: buildOptions fs (qualityKeyOf f :: seen) := by
          simp [buildOptions, hurl, hseen]
        obtain ⟨ihnodup, ihnotseen, ihlen, ihcover⟩ := ih (qualityKeyOf f :: seen)
        rw [hb]
        refine ⟨?_, ?_, ?_, ?_⟩
        · simp only [List.map_cons, optionKey_mk]
          refine List.Pairwise.cons ?_ ihnodup
          intro k hk
          have := ihnotseen k hk
          intro heq
          exact this (by rw [← heq]; exact List.mem_cons_self _ _)
        · intro k hk
          simp only [List.map_cons, optionKey_mk] at hk
          rcases List.mem_cons.1 hk with h | h
          · subst h
            exact hseen
          · intro hks
            exact ihnotseen k h (List.mem_cons_of_mem _ hks)
        · simpa using Nat.succ_le_succ ihlen
        · intro g hg hgurl
          simp only [List.map_cons, optionKey_mk]
          rcases List.mem_cons.1 hg with h | h
          · subst h
            exact Or.inr (List.mem_cons_self _ _)
          · rcases ihcover g h hgurl with hc | hc
            · rcases List.mem_cons.1 hc with h2 | h2
              · exact Or.inr (by rw [h2]; exact List.mem_cons_self _ _)
              · exact Or.inl h2
            · exact Or.inr (List.mem_cons_of_mem _ hc)
    · have hb : buildOptions (f :: fs) seen = buildOptions fs seen := by
        have : truthyOptStr f.url = false := by
          cases h : truthyOptStr f.url
          · rfl
          · exact absurd h hurl
        simp [buildOptions, this]
      obtain ⟨ihnodup, ihnotseen, ihlen, ihcover⟩ := ih seen
      rw [hb]
      refine ⟨ihnodup, ihnotseen, le_trans ihlen (Nat.le_succ _), ?_⟩
      intro g hg hgurl
      rcases List.mem_cons.1 hg with h | h
      · subst h
        exact absurd hgurl hurl
      · exact ihcover g h hgurl

/-- C5 (amended): in every catalog the builder returns, the concatenated
dedup keys "label_ext_hasAudio" are pairwise distinct — hence so are the
`(qualityLabel, ext, hasAudio)` triples — the catalog is no longer than the
format list, and every format with a truthy url has its dedup key
represented in the catalog. -/
theorem c5_dedup_keys (formats : List FormatEntry) (c : List QualityOption)
    (hok : extract_available_qualities formats = .ok c) :
    ((c.map optionKey).Nodup ∧ (c.map optionTriple).Nodup) ∧
    c.length ≤ formats.length ∧
    (∀ f ∈ formats, truthyOptStr f.url = true → qualityKeyOf f ∈ c.map optionKey) := by
  have hc : c = stableSortBy appliedSortKey (buildOptions formats []) := by
    unfold extract_available_qualities at hok
    cases hm : (buildOptions formats []).mapM codeSortKeyOpt with
    | none =>
      rw [hm] at hok
      cases hok
    | some ks =>
      rw [hm] at hok
      cases hok
      rfl
  obtain ⟨hnodup, _, hlen, hcover⟩ := buildOptions_invariant formats []
  have hperm : c.Perm (buildOptions formats []) := by
    rw [hc]
    exact stableSortBy_perm _ _
  have hkeynodup : (c.map optionKey).Nodup :=
    ((hperm.map optionKey).nodup_iff).2 hnodup
  refine ⟨⟨hkeynodup, ?_⟩, ?_, ?_⟩
  · have hmapmap : c.map optionKey =
        (c.map optionTriple).map
          (fun t : String × String × Bool => t.1 ++ "_" ++ t.2.1 ++ "_" ++ pyBoolStr t.2.2) := by
      rw [List.map_map]
      rfl
    rw [hmapmap] at hkeynodup
    exact List.Nodup.of_map _ hkeynodup
  · rw [hperm.length_eq]
    exact hlen
  · intro f hf hurl
    have := hcover f hf hurl
    rcases this with h | h
    · cases h
    · exact ((hperm.map optionKey).mem_iff).2 h

/-- Witness for C5 at a one-format list. -/
theorem c5_dedup_keys_witness :
    ((([mkQualityOption cexBoth] : List QualityOption).map optionKey).Nodup ∧
      (([mkQualityOption cexBoth] : List QualityOption).map optionTriple).Nodup) ∧
    ([mkQualityOption cexBoth] : List QualityOption).length ≤ [cexBoth].length ∧
    (∀ f ∈ [cexBoth], truthyOptStr f.url = true →
      qualityKeyOf f ∈ ([mkQualityOption cexBoth] : List QualityOption).map optionKey) :=
  c5_dedup_keys [cexBoth] [mkQualityOption cexBoth] (by decide)

/-- A format whose label comes from `format_note = "a_b"` with ext "c". -/
def cexNoteAB : FormatEntry :=
  { ext := some "c", url := some "u1", vcodec := some "h264",
    acodec := some "aac", format_note := some "a_b" }

/-- A format whose label comes from `format_note = "a"` with ext "b_c". -/
def cexNoteA : FormatEntry :=
  { ext := some "b_c", url := some "u2", vcodec := some "h264",
    acodec := some "aac", format_note := some "a" }

/-- C5 counterexample: the dedup key is the underscore-joined string, not the
triple.  The triples of the two candidates differ, yet the second format with
a truthy url is dropped because the joined strings collide
("a_b" + "_" + "c" versus "a" + "_" + "b_c"). -/
theorem c5_counterexample :
    optionTriple (mkQualityOption cexNoteAB) ≠ optionTriple (mkQualityOption cexNoteA) ∧
    truthyOptStr cexNoteA.url = true ∧
    qualityKeyOf cexNoteAB = qualityKeyOf cexNoteA ∧
    buildOptions [cexNoteAB, cexNoteA] [] = [mkQualityOption cexNoteAB] := by
  refine ⟨?_, ?_, ?_, ?_⟩ <;> decide

theorem isDigit_ne_p {c : Char} (h : c.isDigit = true) : c ≠ 'p' := by
  intro hc
  subst hc
  exact absurd h (by decide)

theorem isDigit_ne_underscore {c : Char} (h : c.isDigit = true) : c ≠ '_' := by
  intro hc
  subst hc
  exact absurd h (by decide)

theorem isDigit_ne_plus {c : Char} (h : c.isDigit = true) : c ≠ '+' := by
  intro hc
  subst hc
  exact absurd h (by decide)

theorem isDigit_ne_minus {c : Char} (h : c.isDigit = true) : c ≠ '-' := by
  intro hc
  subst hc
  exact absurd h (by decide)

theorem isDigit_not_ws {c : Char} (h : c.isDigit = true) : c.isWhitespace = false := by
  unfold Char.isWhitespace
  by_cases h1 : c = ' '
  · subst h1; exact absurd h (by decide)
  by_cases h2 : c = '\t'
  · subst h2; exact absurd h (by decide)
  by_cases h3 : c = '\r'
  · subst h3; exact absurd h (by decide)
  by_cases h4 : c = '\n'
  · subst h4; exact absurd h (by decide)
  simp [h1, h2, h3, h4]

theorem dropWhile_eq_self_of_false {p : Char → Bool} {l : List Char}
    (h : ∀ c ∈ l, p c = false) : l.dropWhile p = l := by
  cases l with
  | nil => rfl
  | cons c cs =>
    rw [List.dropWhile_cons, h c (List.mem_cons_self _ _)]
    simp

theorem trimWs_digits {ds : List Char} (h : ds.all Char.isDigit = true) : trimWs ds = ds := by
  have hall : ∀ c ∈ ds, Char.isWhitespace c = false := by
    intro c hc
    exact isDigit_not_ws (List.all_eq_true.1 h c hc)
  unfold trimWs
  rw [dropWhile_eq_self_of_false hall]
  rw [dropWhile_eq_self_of_false (fun c hc => hall c (List.mem_reverse.1 hc))]
  exact List.reverse_reverse ds

theorem pyDigitsRest_digits : ∀ {ds : List Char}, ds.all Char.isDigit = true →
    pyDigitsRest ds = true := by
  intro ds
  induction ds with
  | nil => intro; rfl
  | cons c cs ih =>
    intro h
    have hc : c.isDigit = true := (List.all_eq_true.1 h c (List.mem_cons_self _ _))
    have hcs : cs.all Char.isDigit = true := by
      rw [List.all_eq_true]
      intro x hx
      exact List.all_eq_true.1 h x (List.mem_cons_of_mem _ hx)
    unfold pyDigitsRest
    rw [if_neg (isDigit_ne_underscore hc)]
    rw [hc, ih hcs]
    rfl

theorem pyNatParse_digits {ds : List Char} (hne : ds ≠ []) (h : ds.all Char.isDigit = true) :
    pyNatParse ds = some (decimalVal ds) := by
  cases ds with
  | nil => exact absurd rfl hne
  | cons c cs =>
    have hc : c.isDigit = true := List.all_eq_true.1 h c (List.mem_cons_self _ _)
    have hvalid : pyDigitsValid (c :: cs) = true := by
      show (!decide (c = '_') && pyDigitsRest (c :: cs)) = true
      rw [pyDigitsRest_digits h]
      simp [isDigit_ne_underscore hc]
    unfold pyNatParse
    rw [hvalid]
    simp only [if_true]
    congr 1
    apply congrArg
    apply List.filter_eq_self.2
    intro a ha
    simp [isDigit_ne_underscore (List.all_eq_true.1 h a ha)]

theorem pyIntParse_digits {ds : List Char} (hne : ds ≠ []) (h : ds.all Char.isDigit = true) :
    pyIntParse ds = some (Int.ofNat (decimalVal ds)) := by
  unfold pyIntParse
  rw [trimWs_digits h]
  cases ds with
  | nil => exact absurd rfl hne
  | cons c cs =>
    have hc : c.isDigit = true := List.all_eq_true.1 h c (List.mem_cons_self _ _)
    simp only [if_neg (isDigit_ne_plus hc), if_neg (isDigit_ne_minus hc)]
    rw [pyNatParse_digits hne h]
    rfl

theorem band_true {a b : Bool} (h : (a && b) = true) : a = true ∧ b = true := by
  simp at h
  exact h

theorem codeSortKeyOpt_eq_claim (o : QualityOption)
    (h : endsInP o.quality = true → (canonicalHeight o.quality).isSome = true) :
    codeSortKeyOpt o = some (claimSortKey o) := by
  by_cases hend : endsInP o.quality = true
  · have hs := h hend
    unfold canonicalHeight at hs
    by_cases hcond : (o.quality.data.getLast? == some 'p' && !o.quality.data.dropLast.isEmpty
        && o.quality.data.dropLast.all Char.isDigit) = true
    · obtain ⟨h12, h3⟩ := band_true hcond
      obtain ⟨h1, h2⟩ := band_true h12
      have hget : o.quality.data.getLast? = some 'p' := by
        exact beq_iff_eq.mp h1
      have hnil : o.quality.data ≠ [] := by
        intro hn
        rw [hn] at hget
        cases hget
      have hlastp : o.quality.data.getLast hnil = 'p' := by
        have := List.getLast?_eq_getLast o.quality.data hnil
        rw [this] at hget
        exact Option.some.inj hget
      have hdec : o.quality.data.dropLast ++ ['p'] = o.quality.data := by
        rw [← hlastp]
        exact List.dropLast_concat_getLast hnil
      have hdsne : o.quality.data.dropLast ≠ [] := by
        intro hn
        rw [hn] at h2
        cases h2
      have hfilter : o.quality.data.filter (fun c => c ≠ 'p') = o.quality.data.dropLast := by
        conv_lhs => rw [← hdec]
        rw [List.filter_append]
        have hp : List.filter (fun c => (c ≠ 'p' : Bool)) ['p'] = [] := by decide
        rw [hp, List.append_nil]
        apply List.filter_eq_self.2
        intro a ha
        simp [isDigit_ne_p (List.all_eq_true.1 h3 a ha)]
      have hparse := pyIntParse_digits hdsne h3
      have hch : canonicalHeight o.quality = some (decimalVal o.quality.data.dropLast) := by
        unfold canonicalHeight
        rw [if_pos hcond]
      unfold codeSortKeyOpt claimSortKey
      rw [hend, hch, hfilter, hparse]
      simp
    · exfalso
      rw [if_neg hcond] at hs
      cases hs
  · have hend' : endsInP o.quality = false := by
      cases h' : endsInP o.quality
      · rfl
      · exact absurd h' hend
    have hend2 : (o.quality.data.getLast? == some 'p') = false := hend'
    have hch : canonicalHeight o.quality = none := by
      unfold canonicalHeight
      rw [if_neg]
      intro hc
      obtain ⟨h12, _⟩ := band_true hc
      obtain ⟨h1, _⟩ := band_true h12
      rw [hend2] at h1
      cases h1
    unfold codeSortKeyOpt claimSortKey
    rw [hend', hch]
    simp

theorem mapM_option_isSome {α β : Type _} (f : α → Option β) :
    ∀ l : List α, (∀ a ∈ l, (f a).isSome = true) → ∃ ys, l.mapM f = some ys := by
  intro l
  induction l with
  | nil => exact fun _ => ⟨[], rfl⟩
  | cons x xs ih =>
    intro h
    have hx : (f x).isSome = true := h x (List.mem_cons_self _ _)
    obtain ⟨y, hy⟩ := Option.isSome_iff_exists.1 hx
    obtain ⟨ys, hys⟩ := ih (fun a ha => h a (List.mem_cons_of_mem _ ha))
    refine ⟨y :: ys, ?_⟩
    rw [List.mapM_cons, hy, hys]
    rfl

/-- C7: when every produced quality label that ends in "p" is canonical
(digits followed by "p"), the catalog construction succeeds and its output is
exactly the stable sort of the deduplicated options by the claimed key:
video-bearing entries first, numeric height descending, every label not
ending in "p" treated as height 0; it is a permutation of the pre-sort list,
pairwise ordered by the claim's key, and within any fixed key value the
first-seen relative order is preserved. -/
theorem c7_catalog_order (formats : List FormatEntry)
    (hcanon : ∀ o ∈ buildOptions formats [], endsInP o.quality = true →
      (canonicalHeight o.quality).isSome = true) :
    ∃ c, extract_available_qualities formats = .ok c ∧
      c.Perm (buildOptions formats []) ∧
      c.Pairwise claimKeyLe ∧
      ∀ k : Int × Int, c.filter (fun o => decide (claimSortKey o = k)) =
        (buildOptions formats []).filter (fun o => decide (claimSortKey o = k)) := by
  have hkey : ∀ o ∈ buildOptions formats [], codeSortKeyOpt o = some (claimSortKey o) :=
    fun o ho => codeSortKeyOpt_eq_claim o (hcanon o ho)
  have happ : ∀ o ∈ buildOptions formats [], appliedSortKey o = claimSortKey o := by
    intro o ho
    unfold appliedSortKey
    rw [hkey o ho]
    rfl
  have hsome : ∀ o ∈ buildOptions formats [], (codeSortKeyOpt o).isSome = true := by
    intro o ho
    rw [hkey o ho]
    rfl
  obtain ⟨ks, hks⟩ := mapM_option_isSome codeSortKeyOpt _ hsome
  have hperm : (stableSortBy appliedSortKey (buildOptions formats [])).Perm
      (buildOptions formats []) := stableSortBy_perm _ _
  refine ⟨stableSortBy appliedSortKey (buildOptions formats []), ?_, hperm, ?_, ?_⟩
  · unfold extract_available_qualities
    rw [hks]
  · have hp := stableSortBy_pairwise appliedSortKey (buildOptions formats [])
    refine hp.imp_of_mem ?_
    intro a b ha hb hab
    have ha2 : a ∈ buildOptions formats [] := hperm.mem_iff.1 ha
    have hb2 : b ∈ buildOptions formats [] := hperm.mem_iff.1 hb
    unfold claimKeyLe
    rw [← happ a ha2, ← happ b hb2]
    exact hab
  · intro k
    have h1 : (stableSortBy appliedSortKey (buildOptions formats [])).filter
        (fun o => decide (claimSortKey o = k)) =
        (stableSortBy appliedSortKey (buildOptions formats [])).filter
        (fun o => decide (appliedSortKey o = k)) := by
      apply List.filter_congr
      intro o ho
      rw [happ o (hperm.mem_iff.1 ho)]
    have h2 : (buildOptions formats []).filter (fun o => decide (claimSortKey o = k)) =
        (buildOptions formats []).filter (fun o => decide (appliedSortKey o = k)) := by
      apply List.filter_congr
      intro o ho
      rw [happ o ho]
    rw [h1, h2]
    exact stableSortBy_filter_key appliedSortKey _ k

/-- A three-format catalog input: audio only, 720p and 1080p. -/
def w7formats : List FormatEntry :=
  [{ ext := some "m4a", url := some "a1", acodec := some "aac", vcodec := some "none" },
   { ext := some "mp4", url := some "v1", height := some 720,
     vcodec := some "h264", acodec := some "aac" },
   { ext := some "mp4", url := some "v2", height := some 1080,
     vcodec := some "h264", acodec := some "aac" }]

/-- Witness for C7 at `w7formats`. -/
theorem c7_catalog_order_witness :
    ∃ c, extract_available_qualities w7formats = .ok c ∧
      c.Perm (buildOptions w7formats []) ∧
      c.Pairwise claimKeyLe ∧
      ∀ k : Int × Int, c.filter (fun o => decide (claimSortKey o = k)) =
        (buildOptions w7formats []).filter (fun o => decide (claimSortKey o = k)) :=
  c7_catalog_order w7formats (by decide)
